import Mathlib

/-!
Verification of the riffraff Jenkins command-line client.

This file gives a shallow embedding of the reporting core of the program
(job matching, status reporting, node reporting, log fetching, the open
command) and proves or refutes the frozen claims about it.

Modelling conventions:
* The remote Jenkins server is a `Jenkins` record of responses: every
  remote call site in the code becomes a field lookup returning
  `Except String _` (Go's `(value, error)` pair).
* Goroutine fan-out is serialised: each fan-out command returns the list
  of per-item reporter outcomes (`Option String`, `none` when the
  reporter returned early without printing).  The claims under study
  concern which lines are produced, not their interleaving.
* ANSI colour wrapping from the color library is omitted; the marker
  glyphs are kept.
* Go library functions used by the code (`regexp.MatchString`,
  `fmt.Printf` with no arguments, `strings.Contains`) are modelled
  explicitly; each model carries a doc comment stating its scope.
-/

namespace Riffraff

/-! ## A verified model of Go `regexp` for the pattern subset used here

The abstract syntax covers literal characters, `.` (any character),
concatenation, alternation and `*`; this is the subset the model's
pattern compiler accepts.  Matching is by Brzozowski derivatives. -/

/-- Abstract syntax of the modelled regular expressions. -/
inductive GoRegex where
  | emp : GoRegex
  | eps : GoRegex
  | lit : Char → GoRegex
  | dot : GoRegex
  | cat : GoRegex → GoRegex → GoRegex
  | alt : GoRegex → GoRegex → GoRegex
  | star : GoRegex → GoRegex
deriving DecidableEq

/-- Mathematical language of a regular expression, as an inductive
matching relation. -/
inductive GMatches : GoRegex → List Char → Prop where
  | eps : GMatches .eps []
  | lit (c : Char) : GMatches (.lit c) [c]
  | dot (c : Char) : GMatches .dot [c]
  | cat {r₁ r₂ : GoRegex} {s₁ s₂ : List Char} :
      GMatches r₁ s₁ → GMatches r₂ s₂ → GMatches (.cat r₁ r₂) (s₁ ++ s₂)
  | altL {r₁ r₂ : GoRegex} {s : List Char} :
      GMatches r₁ s → GMatches (.alt r₁ r₂) s
  | altR {r₁ r₂ : GoRegex} {s : List Char} :
      GMatches r₂ s → GMatches (.alt r₁ r₂) s
  | starNil {r : GoRegex} : GMatches (.star r) []
  | starCons {r : GoRegex} {s₁ s₂ : List Char} :
      GMatches r s₁ → GMatches (.star r) s₂ → GMatches (.star r) (s₁ ++ s₂)

/-- Whether the regular expression accepts the empty string. -/
def nullable : GoRegex → Bool
  | .emp => false
  | .eps => true
  | .lit _ => false
  | .dot => false
  | .cat r₁ r₂ => nullable r₁ && nullable r₂
  | .alt r₁ r₂ => nullable r₁ || nullable r₂
  | .star _ => true

/-- Brzozowski derivative of a regular expression by one character. -/
def gderiv : GoRegex → Char → GoRegex
  | .emp, _ => .emp
  | .eps, _ => .emp
  | .lit c, a => if c = a then .eps else .emp
  | .dot, _ => .eps
  | .cat r₁ r₂, a =>
      if nullable r₁ then .alt (.cat (gderiv r₁ a) r₂) (gderiv r₂ a)
      else .cat (gderiv r₁ a) r₂
  | .alt r₁ r₂, a => .alt (gderiv r₁ a) (gderiv r₂ a)
  | .star r, a => .cat (gderiv r a) (.star r)

/-- Executable anchored matcher: does the whole word match the regular
expression? -/
def gmatch (r : GoRegex) : List Char → Bool
  | [] => nullable r
  | a :: as => gmatch (gderiv r a) as

/-- Does some prefix of the word match the regular expression? -/
def gmatchSome (r : GoRegex) : List Char → Bool
  | [] => nullable r
  | a :: as => nullable r || gmatchSome (gderiv r a) as

/-- Does the word contain a match of the regular expression anywhere
(unanchored search, the semantics of Go `regexp.MatchString`)? -/
def containsMatch (r : GoRegex) : List Char → Bool
  | [] => nullable r
  | a :: as => gmatchSome r (a :: as) || containsMatch r as

/-- Metacharacters of Go regular expressions that the modelled pattern
compiler does not support. -/
def isMetaChar (c : Char) : Bool :=
  c ∈ ['(', ')', '[', ']', '^', '$', '|', '+', '?', '\\', '\x7b', '\x7d']

/-- Pattern compiler for the modelled subset of Go `regexp` syntax:
literal characters, `.` and postfix `*`.  The accumulator holds the
atoms parsed so far, most recent first.  Unsupported metacharacters,
a leading `*` and a doubled `*` are compile errors, as in Go. -/
def parseChars : List Char → List GoRegex → Except String GoRegex
  | [], acc => .ok ((acc.reverse).foldl GoRegex.cat GoRegex.eps)
  | '*' :: rest, acc =>
      match acc with
      | [] => .error "missing argument to repetition operator"
      | GoRegex.star _ :: _ => .error "invalid nested repetition operator"
      | r :: acc₂ => parseChars rest (GoRegex.star r :: acc₂)
  | '.' :: rest, acc => parseChars rest (GoRegex.dot :: acc)
  | c :: rest, acc =>
      if isMetaChar c then .error "unsupported metacharacter in modelled subset"
      else parseChars rest (GoRegex.lit c :: acc)

/-- Models Go `regexp.Compile` on the modelled pattern subset. -/
def parseGoRegex (pattern : String) : Except String GoRegex :=
  parseChars pattern.data []

/-- Models Go `regexp.MatchString(pattern, s)`: compile the pattern and
report whether `s` contains any match of it. -/
def goMatchString (pattern s : String) : Except String Bool :=
  match parseGoRegex pattern with
  | .error e => .error e
  | .ok r => .ok (containsMatch r s.data)

/-- Spec-side reading of unanchored substring-search semantics: the
string has a decomposition `pre ++ mid ++ post` whose middle part is in
the language of the regular expression. -/
def SubstringMatches (r : GoRegex) (s : String) : Prop :=
  ∃ pre mid post : List Char, s.data = pre ++ mid ++ post ∧ GMatches r mid

/-! ## Data model of the remote entities -/

deriving instance DecidableEq for Except

/-- One entry of `GetAllJobNames` (gojenkins `InnerJob`): name and URL. -/
structure InnerJob where
  name : String
  url : String
deriving DecidableEq

/-- A build (gojenkins `Build`): result classification string, URL and
console output. -/
structure Build where
  result : String
  url : String
  consoleOutput : String
deriving DecidableEq

/-- A job handle returned by `GetJob`; its one remote call used by the
program is `GetLastBuild`. -/
structure Job where
  lastBuild : Except String Build
deriving DecidableEq

/-- Modelled from the spec: a node handle (gojenkins `Node`, whose
source is outside this repository).  `Poll` refreshes the cached
online flag from the live state (`pollResult`), and a failed poll
leaves the stale cache in place; `IsOnline` reads the cached flag and
may itself fail (`queryErr`). -/
structure NodeState where
  name : String
  cachedOnline : Bool
  pollResult : Except String Bool
  queryErr : Option String
deriving DecidableEq

/-- The remote Jenkins server, as the responses it gives to the calls
the program makes. -/
structure Jenkins where
  allJobNames : Except String (List InnerJob)
  getJob : String → Except String Job
  allNodes : Except String (List NodeState)

/-! ## The reporting core, translated from the source -/

/-- The three-valued status marker. -/
inductive Marker where
  | ok
  | failed
  | unknown
deriving DecidableEq

/-- The `switch result` mapping of `printStatus` and `logsExec`:
`"SUCCESS"` and `"FAILURE"` are the named cases, everything else falls
to the default. -/
def markerFor (result : String) : Marker :=
  if result = "SUCCESS" then Marker.ok
  else if result = "FAILURE" then Marker.failed
  else Marker.unknown

/-- Glyph printed for each marker (colour wrapping omitted). -/
def markerGlyph : Marker → String
  | Marker.ok => "✓"
  | Marker.failed => "✗"
  | Marker.unknown => "?"

/-- Models Go `strings.Contains s sub`: whether `sub` occurs as a
contiguous substring of `s`. -/
def strContains (s sub : String) : Bool :=
  decide (sub.data <:+: s.data)

/-- `getFailedSaltStates` translated clause for clause: split the output
on the ten-hyphen separator and keep, by appending in loop order, the
segments containing `Result: False`. -/
def getFailedSaltStates (output : String) : List String :=
  let saltStates := output.splitOn "----------"
  saltStates.foldl
    (fun failedStates state =>
      if strContains state "Result: False" then failedStates ++ [state]
      else failedStates)
    []

/-- Models Go `fmt.Printf` applied to a format string with no variadic
arguments, for format strings whose verbs are single characters
directly following the percent sign (no flags or widths): an ordinary
character is echoed; a doubled percent prints one percent; a percent
followed by a verb character prints the missing-operand diagnostic; a
trailing percent prints the no-verb diagnostic. -/
def goFormatNoArgs : List Char → List Char
  | [] => []
  | ['%'] => "%!(NOVERB)".data
  | '%' :: '%' :: rest => '%' :: goFormatNoArgs rest
  | '%' :: c :: rest => "%!".data ++ c :: "(MISSING)".data ++ goFormatNoArgs rest
  | c :: rest => c :: goFormatNoArgs rest

/-- String version of `goFormatNoArgs`. -/
def goPrintfNoArgs (s : String) : String :=
  ⟨goFormatNoArgs s.data⟩

/-- Console-output section of `logsExec` (lines 115-121): the salt
branch prints each failed salt state with `fmt.Println`, the other
branch passes the console output to `fmt.Printf` as the format
string. -/
def printConsoleOutput (salt : Bool) (consoleOutput : String) : String :=
  if salt then
    String.join ((getFailedSaltStates consoleOutput).map (fun st => st ++ "\n"))
  else
    goPrintfNoArgs consoleOutput

/-- Outcome of the `logs` command. -/
inductive LogsOutcome where
  | ok (stdout : String)
  | err (e : String)
  | nilPanic (stdout : String)
deriving DecidableEq

/-- `logsExec` translated clause for clause.  `GetJob` failure returns
the error.  On `GetLastBuild` failure the code synthesises the
`UNKNOWN` result string and keeps going, but `lastBuild` is then a nil
pointer and the very next statement calls `lastBuild.GetUrl()` on it,
so the command dies in a runtime panic before printing anything. -/
def logsExec (jenkins : Jenkins) (jobName : String) (salt : Bool) : LogsOutcome :=
  match jenkins.getJob jobName with
  | .error e => .err e
  | .ok build =>
    match build.lastBuild with
    | .error e =>
        let result := "UNKNOWN (" ++ e ++ ")"
        let _marker := markerFor result
        .nilPanic ""
    | .ok lastBuild =>
        let result := lastBuild.result
        let marker := markerFor result
        let line₁ := markerGlyph marker ++ " " ++ jobName ++ " (" ++ lastBuild.url ++ ")\n"
        let line₂ := "Jenkins result code: " ++ result ++ "\n"
        let consolePart := printConsoleOutput salt lastBuild.consoleOutput
        let line₄ := lastBuild.url ++ "/consoleText\n"
        .ok (line₁ ++ line₂ ++ consolePart ++ line₄)

/-- Per-job verdict of the matcher: `match, _ := regexp.MatchString(...)`
swallows the error, leaving `match` at its zero value `false`. -/
def matchVerdict (regex name : String) : Bool :=
  match goMatchString regex name with
  | .ok b => b
  | .error _ => false

/-- `findMatchingJobs` translated clause for clause: fetch all job
names, then keep, by appending in loop order, the jobs whose name
matches the pattern. -/
def findMatchingJobs (jenkins : Jenkins) (regex : String) :
    Except String (List InnerJob) :=
  match jenkins.allJobNames with
  | .error e => .error e
  | .ok jobs =>
      .ok (jobs.foldl
        (fun matchingJobs job =>
          if matchVerdict regex job.name then matchingJobs ++ [job]
          else matchingJobs)
        [])

/-- One `printStatus` goroutine body.  `GetJob` failure returns the
error before anything is printed (the goroutine's return value is
discarded), so it yields no line; a `GetLastBuild` failure degrades
the result string to `UNKNOWN (...)` and still yields a line. -/
def printStatus (jenkins : Jenkins) (job : InnerJob) : Option String :=
  match jenkins.getJob job.name with
  | .error _ => none
  | .ok build =>
      let result :=
        match build.lastBuild with
        | .error e => "UNKNOWN (" ++ e ++ ")"
        | .ok lastBuild => lastBuild.result
      some (markerGlyph (markerFor result) ++ " " ++ job.name ++ " (" ++ job.url ++ ")")

/-- `statusExec`: resolve the match set, then fan `printStatus` out over
it; the wait group awaits every goroutine, so one outcome per matched
job is collected. -/
def statusExec (jenkins : Jenkins) (regex : String) :
    Except String (List (Option String)) :=
  match findMatchingJobs jenkins regex with
  | .error e => .error e
  | .ok jobs => .ok (jobs.map (printStatus jenkins))

/-- Lines actually written to standard output by a fan-out command. -/
def printedLines (outs : List (Option String)) : List String :=
  outs.filterMap id

/-- One `printNodeStatus` goroutine body.  `node.Poll()` has both its
return values discarded, so a poll failure silently leaves the stale
cached flag; an `IsOnline` error makes the body return the error,
which the discarded goroutine result swallows, so no line is printed
for that node. -/
def printNodeStatus (node : NodeState) : Option String :=
  let polled :=
    match node.pollResult with
    | .ok live => { node with cachedOnline := live }
    | .error _ => node
  match polled.queryErr with
  | some _ => none
  | none =>
      some (polled.name ++ ": " ++ (if polled.cachedOnline then "Online" else "Offline"))

/-- The `nodes` command: fetch all nodes, then fan `printNodeStatus`
out over them. -/
def nodesExec (jenkins : Jenkins) : Except String (List (Option String)) :=
  match jenkins.allNodes with
  | .error e => .error e
  | .ok ns => .ok (ns.map printNodeStatus)

/-- Outcome of the `open` command. -/
inductive OpenOutcome where
  | err (e : String)
  | fatal (msg : String)
  | ok (opened : List String)
deriving DecidableEq

/-- `openExec`: resolve the match set; more than three matches is
`log.Fatalf` (the process exits before any tab is opened); otherwise
every matched job's URL is opened sequentially in match order. -/
def openExec (jenkins : Jenkins) (regex : String) : OpenOutcome :=
  match findMatchingJobs jenkins regex with
  | .error e => .err e
  | .ok jobs =>
      if jobs.length > 3 then
        .fatal "More than three jobs match your criteria. This is probably not what you expected. Please narrow down your search"
      else
        .ok (jobs.map (fun job => job.url))

/-- Browser tabs opened by an `open` outcome. -/
def openedTabs : OpenOutcome → List String
  | .ok opened => opened
  | _ => []

/-! ## Concrete server environments used to evaluate the commands -/

/-- A server with one job whose job-resolution call fails. -/
def jobFetchFailEnv : Jenkins where
  allJobNames := .ok [⟨"alpha", "http://jenkins/job/alpha"⟩]
  getJob := fun _ => .error "connection refused"
  allNodes := .ok []

/-- A server with two jobs: the first job's last-build fetch fails, the
second job's last build succeeded. -/
def lastBuildFailEnv : Jenkins where
  allJobNames := .ok [⟨"alpha", "uA"⟩, ⟨"beta", "uB"⟩]
  getJob := fun name =>
    if name = "alpha" then .ok ⟨.error "timeout"⟩
    else .ok ⟨.ok ⟨"SUCCESS", "http://jenkins/job/beta/7", ""⟩⟩
  allNodes := .ok []

/-- A server with one job whose last build succeeded and whose console
output contains a percent directive. -/
def percentEnv : Jenkins where
  allJobNames := .ok [⟨"job1", "u1"⟩]
  getJob := fun _ => .ok ⟨.ok ⟨"SUCCESS", "http://jenkins/job/job1/3", "100%d"⟩⟩
  allNodes := .ok []

/-- A server with three jobs, for exercising the matcher and the open
command. -/
def matcherEnv : Jenkins where
  allJobNames := .ok [⟨"alpha", "u1"⟩, ⟨"beta", "u2"⟩, ⟨"beet", "u3"⟩]
  getJob := fun _ => .error "unused"
  allNodes := .ok []

/-- A server with four jobs, for the open command's guard. -/
def fourJobsEnv : Jenkins where
  allJobNames := .ok [⟨"a", "u1"⟩, ⟨"b", "u2"⟩, ⟨"c", "u3"⟩, ⟨"d", "u4"⟩]
  getJob := fun _ => .error "unused"
  allNodes := .ok []

/-- A server with three nodes; the second node's online query fails. -/
def nodesEnv : Jenkins where
  allJobNames := .ok []
  getJob := fun _ => .error "unused"
  allNodes := .ok
    [⟨"n1", false, .ok true, none⟩,
     ⟨"n2", false, .ok true, some "query failed"⟩,
     ⟨"n3", true, .ok false, none⟩]

/-- A node whose poll fails, leaving its stale cached flag in place. -/
def stalePollNode : NodeState := ⟨"n4", true, .error "poll failed", none⟩

/-! ## Correctness of the regular-expression engine -/

theorem gmatch_emp : ∀ s : List Char, gmatch GoRegex.emp s = false := by
  intro s
  induction s with
  | nil => rfl
  | cons a as ih => simpa [gmatch, gderiv] using ih

theorem gmatch_eps (s : List Char) : gmatch GoRegex.eps s = true ↔ s = [] := by
  cases s with
  | nil => simp [gmatch, nullable]
  | cons a as => simp [gmatch, gderiv, gmatch_emp]

theorem gmatch_lit (c : Char) (s : List Char) :
    gmatch (GoRegex.lit c) s = true ↔ s = [c] := by
  cases s with
  | nil => simp [gmatch, nullable]
  | cons a as =>
    by_cases h : c = a
    · subst h
      simp [gmatch, gderiv, gmatch_eps]
    · simp only [gmatch, gderiv, if_neg h, gmatch_emp, List.cons_eq_cons]
      exact ⟨by simp, fun hc => absurd hc.1.symm h⟩

theorem gmatch_dot (s : List Char) :
    gmatch GoRegex.dot s = true ↔ ∃ c, s = [c] := by
  cases s with
  | nil => simp [gmatch, nullable]
  | cons a as => simp [gmatch, gderiv, gmatch_eps]

theorem gmatch_alt : ∀ (s : List Char) (r₁ r₂ : GoRegex),
    gmatch (GoRegex.alt r₁ r₂) s = (gmatch r₁ s || gmatch r₂ s) := by
  intro s
  induction s with
  | nil => intro r₁ r₂; simp [gmatch, nullable]
  | cons a as ih =>
      intro r₁ r₂
      simpa [gmatch, gderiv] using ih (gderiv r₁ a) (gderiv r₂ a)

theorem gmatch_cat : ∀ (s : List Char) (r₁ r₂ : GoRegex),
    gmatch (GoRegex.cat r₁ r₂) s = true ↔
      ∃ t u, s = t ++ u ∧ gmatch r₁ t = true ∧ gmatch r₂ u = true := by
  intro s
  induction s with
  | nil =>
      intro r₁ r₂
      constructor
      · intro h
        rw [show gmatch (GoRegex.cat r₁ r₂) [] = (nullable r₁ && nullable r₂) from rfl,
          Bool.and_eq_true] at h
        exact ⟨[], [], rfl, h.1, h.2⟩
      · rintro ⟨t, u, htu, h₁, h₂⟩
        obtain ⟨rfl, rfl⟩ := List.append_eq_nil.mp htu.symm
        rw [show gmatch (GoRegex.cat r₁ r₂) [] = (nullable r₁ && nullable r₂) from rfl,
          Bool.and_eq_true]
        exact ⟨h₁, h₂⟩
  | cons a as ih =>
      intro r₁ r₂
      rw [show gmatch (GoRegex.cat r₁ r₂) (a :: as)
          = gmatch (gderiv (GoRegex.cat r₁ r₂) a) as from rfl]
      by_cases hnull : nullable r₁ = true
      · rw [show gderiv (GoRegex.cat r₁ r₂) a
            = GoRegex.alt (GoRegex.cat (gderiv r₁ a) r₂) (gderiv r₂ a) from by
            simp [gderiv, hnull]]
        rw [gmatch_alt, Bool.or_eq_true, ih]
        constructor
        · rintro (⟨t, u, htu, h₁, h₂⟩ | h)
          · exact ⟨a :: t, u, by simp [htu], h₁, h₂⟩
          · exact ⟨[], a :: as, rfl, hnull, h⟩
        · rintro ⟨t, u, htu, h₁, h₂⟩
          cases t with
          | nil =>
              right
              rw [List.nil_append] at htu
              rw [← htu] at h₂
              exact h₂
          | cons b t' =>
              left
              rw [List.cons_append, List.cons_eq_cons] at htu
              obtain ⟨rfl, rfl⟩ := htu
              exact ⟨t', u, rfl, h₁, h₂⟩
      · rw [show gderiv (GoRegex.cat r₁ r₂) a = GoRegex.cat (gderiv r₁ a) r₂ from by
            simp [gderiv, hnull]]
        rw [ih]
        constructor
        · rintro ⟨t, u, htu, h₁, h₂⟩
          exact ⟨a :: t, u, by simp [htu], h₁, h₂⟩
        · rintro ⟨t, u, htu, h₁, h₂⟩
          cases t with
          | nil => exact absurd h₁ (by simpa [gmatch] using hnull)
          | cons b t' =>
              rw [List.cons_append, List.cons_eq_cons] at htu
              obtain ⟨rfl, rfl⟩ := htu
              exact ⟨t', u, rfl, h₁, h₂⟩

theorem gmatch_star (r : GoRegex) :
    ∀ s : List Char, gmatch (GoRegex.star r) s = true ↔
      ∃ S : List (List Char), s = S.flatten ∧ ∀ t ∈ S, t ≠ [] ∧ gmatch r t = true :=
  fun s => by
    have IH := fun t (_ : List.length t < List.length s) => gmatch_star r t
    clear gmatch_star
    constructor
    · cases s with
      | nil => intro _; exact ⟨[], rfl, by simp⟩
      | cons a as =>
          intro h
          rw [show gmatch (GoRegex.star r) (a :: as)
              = gmatch (GoRegex.cat (gderiv r a) (GoRegex.star r)) as from rfl,
            gmatch_cat] at h
          obtain ⟨t, u, hs, ht, hu⟩ := h
          have hlen : u.length < (a :: as).length := by
            simp only [hs, List.length_cons, List.length_append]
            omega
          obtain ⟨S, hS, hall⟩ := (IH u hlen).mp hu
          refine ⟨(a :: t) :: S, by simp [hs, hS], ?_⟩
          intro t' ht'
          rcases List.mem_cons.mp ht' with h₁ | h₂
          · subst h₁; exact ⟨by simp, ht⟩
          · exact hall t' h₂
    · rintro ⟨S, hsum, helem⟩
      cases s with
      | nil => rfl
      | cons a as =>
          rw [show gmatch (GoRegex.star r) (a :: as)
              = gmatch (GoRegex.cat (gderiv r a) (GoRegex.star r)) as from rfl,
            gmatch_cat]
          cases S with
          | nil => simp at hsum
          | cons t' U =>
              cases t' with
              | nil => exact absurd rfl (helem [] (by simp)).1
              | cons b t =>
                  have hbt := helem (b :: t) (by simp)
                  rw [List.flatten_cons, List.cons_append, List.cons_eq_cons] at hsum
                  obtain ⟨rfl, hsum₂⟩ := hsum
                  refine ⟨t, U.flatten, hsum₂, hbt.2, ?_⟩
                  have hwf : U.flatten.length < (a :: as).length := by
                    simp only [hsum₂, List.length_cons, List.length_append]
                    omega
                  exact (IH _ hwf).mpr
                    ⟨U, rfl, fun v hv => helem v (List.mem_cons_of_mem _ hv)⟩
termination_by s => s.length

theorem gmatches_emp (s : List Char) : ¬ GMatches GoRegex.emp s := by
  intro h
  cases h

theorem gmatches_eps_iff (s : List Char) : GMatches GoRegex.eps s ↔ s = [] := by
  constructor
  · intro h; cases h; rfl
  · rintro rfl; exact GMatches.eps

theorem gmatches_lit_iff (c : Char) (s : List Char) :
    GMatches (GoRegex.lit c) s ↔ s = [c] := by
  constructor
  · intro h; cases h; rfl
  · rintro rfl; exact GMatches.lit c

theorem gmatches_dot_iff (s : List Char) :
    GMatches GoRegex.dot s ↔ ∃ c, s = [c] := by
  constructor
  · intro h; cases h with | dot c => exact ⟨c, rfl⟩
  · rintro ⟨c, rfl⟩; exact GMatches.dot c

theorem gmatches_alt_iff (r₁ r₂ : GoRegex) (s : List Char) :
    GMatches (GoRegex.alt r₁ r₂) s ↔ GMatches r₁ s ∨ GMatches r₂ s := by
  constructor
  · intro h
    cases h with
    | altL h => exact Or.inl h
    | altR h => exact Or.inr h
  · rintro (h | h)
    · exact GMatches.altL h
    · exact GMatches.altR h

theorem gmatches_cat_iff (r₁ r₂ : GoRegex) (s : List Char) :
    GMatches (GoRegex.cat r₁ r₂) s ↔
      ∃ t u, s = t ++ u ∧ GMatches r₁ t ∧ GMatches r₂ u := by
  constructor
  · intro h
    cases h with
    | cat h₁ h₂ => exact ⟨_, _, rfl, h₁, h₂⟩
  · rintro ⟨t, u, rfl, h₁, h₂⟩
    exact GMatches.cat h₁ h₂

theorem gmatches_star_inv {r : GoRegex} {s : List Char}
    (h : GMatches (GoRegex.star r) s) :
    ∃ S : List (List Char), s = S.flatten ∧ ∀ t ∈ S, t ≠ [] ∧ GMatches r t := by
  generalize hr : GoRegex.star r = rs at h
  induction h with
  | eps => simp at hr
  | lit c => simp at hr
  | dot c => simp at hr
  | cat _ _ _ _ => simp at hr
  | altL _ _ => simp at hr
  | altR _ _ => simp at hr
  | starNil => exact ⟨[], rfl, by simp⟩
  | starCons h₁ h₂ ih₁ ih₂ =>
      obtain rfl : r = _ := by injection hr
      obtain ⟨S, hS, hall⟩ := ih₂ rfl
      rename_i s₁ s₂
      by_cases hnil : s₁ = []
      · subst hnil
        exact ⟨S, by simpa using hS, hall⟩
      · refine ⟨s₁ :: S, by simp [hS], ?_⟩
        intro t ht
        rcases List.mem_cons.mp ht with h' | h'
        · subst h'; exact ⟨hnil, h₁⟩
        · exact hall t h'

theorem gmatches_star_of_pieces {r : GoRegex} :
    ∀ S : List (List Char), (∀ t ∈ S, GMatches r t) →
      GMatches (GoRegex.star r) S.flatten := by
  intro S
  induction S with
  | nil => intro _; exact GMatches.starNil
  | cons t S ih =>
      intro h
      have hrest : GMatches (GoRegex.star r) S.flatten :=
        ih (fun u hu => h u (List.mem_cons_of_mem _ hu))
      simpa [List.flatten_cons] using GMatches.starCons (h t (by simp)) hrest

theorem gmatches_star_iff {r : GoRegex} {s : List Char} :
    GMatches (GoRegex.star r) s ↔
      ∃ S : List (List Char), s = S.flatten ∧ ∀ t ∈ S, t ≠ [] ∧ GMatches r t := by
  constructor
  · exact gmatches_star_inv
  · rintro ⟨S, rfl, h⟩
    exact gmatches_star_of_pieces S (fun t ht => (h t ht).2)

theorem gmatch_iff : ∀ (r : GoRegex) (s : List Char),
    gmatch r s = true ↔ GMatches r s := by
  intro r
  induction r with
  | emp =>
      intro s
      constructor
      · intro h; rw [gmatch_emp] at h; exact absurd h (by simp)
      · intro h; exact absurd h (gmatches_emp s)
  | eps => intro s; rw [gmatch_eps, gmatches_eps_iff]
  | lit c => intro s; rw [gmatch_lit, gmatches_lit_iff]
  | dot => intro s; rw [gmatch_dot, gmatches_dot_iff]
  | cat r₁ r₂ ih₁ ih₂ =>
      intro s
      rw [gmatch_cat, gmatches_cat_iff]
      simp only [ih₁, ih₂]
  | alt r₁ r₂ ih₁ ih₂ =>
      intro s
      rw [gmatches_alt_iff, gmatch_alt, Bool.or_eq_true]
      simp only [ih₁, ih₂]
  | star r ih =>
      intro s
      rw [gmatch_star, gmatches_star_iff]
      simp only [ih]

theorem gmatchSome_iff : ∀ (s : List Char) (r : GoRegex),
    gmatchSome r s = true ↔ ∃ t u, s = t ++ u ∧ gmatch r t = true := by
  intro s
  induction s with
  | nil =>
      intro r
      constructor
      · intro h; exact ⟨[], [], rfl, h⟩
      · rintro ⟨t, u, htu, h⟩
        obtain ⟨rfl, rfl⟩ := List.append_eq_nil.mp htu.symm
        exact h
  | cons a as ih =>
      intro r
      rw [show gmatchSome r (a :: as) = (nullable r || gmatchSome (gderiv r a) as)
        from rfl, Bool.or_eq_true]
      constructor
      · rintro (h | h)
        · exact ⟨[], a :: as, rfl, h⟩
        · obtain ⟨t, u, htu, hm⟩ := (ih _).mp h
          exact ⟨a :: t, u, by simp [htu], hm⟩
      · rintro ⟨t, u, htu, hm⟩
        cases t with
        | nil =>
            left
            exact hm
        | cons b t' =>
            right
            rw [List.cons_append, List.cons_eq_cons] at htu
            obtain ⟨rfl, rfl⟩ := htu
            exact (ih _).mpr ⟨t', u, rfl, hm⟩

theorem containsMatch_iff : ∀ (s : List Char) (r : GoRegex),
    containsMatch r s = true ↔
      ∃ pre mid post, s = pre ++ mid ++ post ∧ gmatch r mid = true := by
  intro s
  induction s with
  | nil =>
      intro r
      constructor
      · intro h; exact ⟨[], [], [], rfl, h⟩
      · rintro ⟨pre, mid, post, heq, h⟩
        obtain ⟨hpm, rfl⟩ := List.append_eq_nil.mp heq.symm
        obtain ⟨rfl, rfl⟩ := List.append_eq_nil.mp hpm
        exact h
  | cons a as ih =>
      intro r
      rw [show containsMatch r (a :: as)
          = (gmatchSome r (a :: as) || containsMatch r as) from rfl, Bool.or_eq_true]
      constructor
      · rintro (h | h)
        · obtain ⟨mid, post, heq, hm⟩ := (gmatchSome_iff _ _).mp h
          exact ⟨[], mid, post, by simpa using heq, hm⟩
        · obtain ⟨pre, mid, post, heq, hm⟩ := (ih _).mp h
          exact ⟨a :: pre, mid, post, by simp [heq], hm⟩
      · rintro ⟨pre, mid, post, heq, hm⟩
        cases pre with
        | nil =>
            left
            exact (gmatchSome_iff _ _).mpr ⟨mid, post, by simpa using heq, hm⟩
        | cons b pre' =>
            right
            simp only [List.cons_append] at heq
            rw [List.cons_eq_cons] at heq
            obtain ⟨rfl, rfl⟩ := heq
            exact (ih _).mpr ⟨pre', mid, post, rfl, hm⟩

theorem containsMatch_substring_iff (r : GoRegex) (s : String) :
    containsMatch r s.data = true ↔ SubstringMatches r s := by
  rw [containsMatch_iff]
  unfold SubstringMatches
  simp only [gmatch_iff]

theorem containsMatch_of_nullable {r : GoRegex} (h : nullable r = true) :
    ∀ s : List Char, containsMatch r s = true := by
  intro s
  cases s with
  | nil => exact h
  | cons a as =>
      rw [show containsMatch r (a :: as)
          = (gmatchSome r (a :: as) || containsMatch r as) from rfl]
      rw [show gmatchSome r (a :: as) = (nullable r || gmatchSome (gderiv r a) as)
        from rfl, h]
      simp

/-! ## Helper lemmas about the commands -/

theorem parse_dotstar :
    parseGoRegex ".*" = .ok (GoRegex.cat GoRegex.eps (GoRegex.star GoRegex.dot)) :=
  rfl

theorem goMatchString_dotstar (name : String) :
    goMatchString ".*" name
      = .ok (containsMatch
          (GoRegex.cat GoRegex.eps (GoRegex.star GoRegex.dot)) name.data) := by
  unfold goMatchString
  rw [parse_dotstar]

theorem matchVerdict_dotstar (name : String) : matchVerdict ".*" name = true := by
  unfold matchVerdict
  rw [goMatchString_dotstar,
    containsMatch_of_nullable
      (show nullable (GoRegex.cat GoRegex.eps (GoRegex.star GoRegex.dot)) = true
        from rfl) name.data]

theorem matchVerdict_of_parse_error {pattern : String} {e : String}
    (h : parseGoRegex pattern = .error e) (name : String) :
    matchVerdict pattern name = false := by
  unfold matchVerdict goMatchString
  rw [h]

theorem findMatchingJobs_loop (regex : String) :
    ∀ (l acc : List InnerJob),
      l.foldl
        (fun matchingJobs job =>
          if matchVerdict regex job.name then matchingJobs ++ [job]
          else matchingJobs) acc
      = acc ++ l.filter (fun job => matchVerdict regex job.name) := by
  intro l
  induction l with
  | nil => intro acc; simp
  | cons x xs ih =>
      intro acc
      by_cases h : matchVerdict regex x.name
      · simp [List.foldl_cons, h, ih, List.filter_cons]
      · simp [List.foldl_cons, h, ih, List.filter_cons]

theorem findMatchingJobs_eq_filter {jenkins : Jenkins} {jobs : List InnerJob}
    (regex : String) (h : jenkins.allJobNames = .ok jobs) :
    findMatchingJobs jenkins regex
      = .ok (jobs.filter (fun job => matchVerdict regex job.name)) := by
  unfold findMatchingJobs
  rw [h]
  simp [findMatchingJobs_loop]

theorem getFailedSaltStates_loop :
    ∀ (l acc : List String),
      l.foldl
        (fun failedStates state =>
          if strContains state "Result: False" then failedStates ++ [state]
          else failedStates) acc
      = acc ++ l.filter (fun state => strContains state "Result: False") := by
  intro l
  induction l with
  | nil => intro acc; simp
  | cons x xs ih =>
      intro acc
      by_cases h : strContains x "Result: False"
      · simp [List.foldl_cons, h, ih, List.filter_cons]
      · simp [List.foldl_cons, h, ih, List.filter_cons]

theorem getFailedSaltStates_eq_filter (output : String) :
    getFailedSaltStates output
      = (output.splitOn "----------").filter
          (fun state => strContains state "Result: False") := by
  unfold getFailedSaltStates
  simp [getFailedSaltStates_loop]

theorem statusExec_of_matched {jenkins : Jenkins} {jobs : List InnerJob}
    (regex : String) (h : findMatchingJobs jenkins regex = .ok jobs) :
    statusExec jenkins regex = .ok (jobs.map (printStatus jenkins)) := by
  unfold statusExec
  rw [h]

theorem printStatus_some {jenkins : Jenkins} {job : InnerJob} {b : Job}
    (h : jenkins.getJob job.name = .ok b) :
    printStatus jenkins job
      = some (markerGlyph (markerFor
            (match b.lastBuild with
             | .error e => "UNKNOWN (" ++ e ++ ")"
             | .ok lastBuild => lastBuild.result))
          ++ " " ++ job.name ++ " (" ++ job.url ++ ")") := by
  unfold printStatus
  rw [h]

theorem printStatus_none {jenkins : Jenkins} {job : InnerJob} {e : String}
    (h : jenkins.getJob job.name = .error e) :
    printStatus jenkins job = none := by
  unfold printStatus
  rw [h]

theorem printedLines_length_of_resolved (jenkins : Jenkins) :
    ∀ jobs : List InnerJob,
      (∀ job ∈ jobs, ∃ b, jenkins.getJob job.name = .ok b) →
      (printedLines (jobs.map (printStatus jenkins))).length = jobs.length := by
  intro jobs
  induction jobs with
  | nil => intro _; rfl
  | cons j js ih =>
      intro h
      obtain ⟨b, hb⟩ := h j (by simp)
      rw [List.map_cons, printStatus_some hb]
      simp only [printedLines, List.filterMap_cons, id, List.length_cons]
      rw [show printedLines (js.map (printStatus jenkins))
          = (js.map (printStatus jenkins)).filterMap id from rfl] at ih
      rw [ih (fun job hj => h job (List.mem_cons_of_mem _ hj))]

/-! ## The claims -/

/-- C1, counterexample: with one matched job whose job-resolution fetch
fails, the status fan-out produces zero output lines, not one line per
item — the claim that N matched items always yield exactly N lines is
false. -/
theorem c1_counterexample_line_loss :
    findMatchingJobs jobFetchFailEnv ".*"
      = .ok [⟨"alpha", "http://jenkins/job/alpha"⟩]
  ∧ statusExec jobFetchFailEnv ".*" = .ok [none]
  ∧ (printedLines [none]).length = 0
  ∧ (0 : Nat) ≠ [(⟨"alpha", "http://jenkins/job/alpha"⟩ : InnerJob)].length := by
  decide

/-- C1 (amended): the status fan-out collects one reporter outcome per
matched item (the wait group awaits all of them), and produces exactly
N output lines whenever every item's job-resolution succeeds — a
last-build failure still yields the item's line — but an item whose
job-resolution fails contributes no line at all, without affecting the
other items' outcomes. -/
theorem c1_fanout_line_per_item (jenkins : Jenkins) (regex : String)
    (jobs : List InnerJob) (h : findMatchingJobs jenkins regex = .ok jobs) :
    statusExec jenkins regex = .ok (jobs.map (printStatus jenkins))
  ∧ (jobs.map (printStatus jenkins)).length = jobs.length
  ∧ ((∀ job ∈ jobs, ∃ b, jenkins.getJob job.name = .ok b) →
      (printedLines (jobs.map (printStatus jenkins))).length = jobs.length)
  ∧ (∀ job ∈ jobs, ∀ e, jenkins.getJob job.name = .error e →
      printStatus jenkins job = none)
  ∧ (∀ ns, jenkins.allNodes = .ok ns →
      nodesExec jenkins = .ok (ns.map printNodeStatus)
      ∧ (ns.map printNodeStatus).length = ns.length) := by
  refine ⟨statusExec_of_matched regex h, List.length_map _ _, ?_, ?_, ?_⟩
  · exact printedLines_length_of_resolved jenkins jobs
  · intro job _ e he
    exact printStatus_none he
  · intro ns hns
    refine ⟨?_, List.length_map _ _⟩
    unfold nodesExec
    rw [hns]

/-- C1 witness: on a server where the first job's last-build fetch
fails and the second succeeds, both matched jobs still get a line. -/
theorem c1_witness :
    (printedLines ([⟨"alpha", "uA"⟩, ⟨"beta", "uB"⟩].map
      (printStatus lastBuildFailEnv))).length = 2 := by
  have h := c1_fanout_line_per_item lastBuildFailEnv ".*"
    [⟨"alpha", "uA"⟩, ⟨"beta", "uB"⟩] (by decide)
  refine h.2.2.1 ?_
  intro job hj
  rcases List.mem_cons.mp hj with rfl | hj
  · exact ⟨⟨Except.error "timeout"⟩, by decide⟩
  · rcases List.mem_cons.mp hj with rfl | hj
    · exact ⟨⟨Except.ok ⟨"SUCCESS", "http://jenkins/job/beta/7", ""⟩⟩, by decide⟩
    · cases hj

/-- C2, code bug: the salt-off branch hands the console output to
Printf as the format string, so output containing a percent directive
is not reproduced byte-identically; on console output `100%d` the
command prints `100%!d(MISSING)`. -/
theorem c2_percent_mangled :
    printConsoleOutput false "100%d" = "100%!d(MISSING)"
  ∧ printConsoleOutput false "100%d" ≠ "100%d"
  ∧ logsExec percentEnv "job1" false
      = .ok ("✓ job1 (http://jenkins/job/job1/3)\n"
          ++ "Jenkins result code: SUCCESS\n"
          ++ "100%!d(MISSING)"
          ++ "http://jenkins/job/job1/3/consoleText\n") := by
  decide

/-- C3, counterexample: when the job resolves but its last-build fetch
fails, the logs command does not abort with a propagated error — it
falls into the synthesized-UNKNOWN branch and dies dereferencing the
absent build. -/
theorem c3_counterexample_no_propagation :
    logsExec lastBuildFailEnv "alpha" false = .nilPanic ""
  ∧ logsExec lastBuildFailEnv "alpha" false ≠ .err "timeout" := by
  decide

/-- C3 (amended): a job-resolution failure aborts the logs command with
the propagated error; a last-build-resolution failure does not
propagate — the command continues into the error branch and crashes on
the unguarded nil-build dereference before producing any output. -/
theorem c3_single_job_abort (jenkins : Jenkins) (jobName : String)
    (salt : Bool) (e : String) :
    (jenkins.getJob jobName = .error e →
      logsExec jenkins jobName salt = .err e)
  ∧ (∀ job, jenkins.getJob jobName = .ok job → job.lastBuild = .error e →
      logsExec jenkins jobName salt = .nilPanic "") := by
  constructor
  · intro h
    unfold logsExec
    rw [h]
  · intro job h₁ h₂
    unfold logsExec
    rw [h₁]
    simp only [h₂]

/-- C3 witness: both branches of the amended claim at concrete
servers. -/
theorem c3_witness :
    logsExec jobFetchFailEnv "alpha" false = .err "connection refused"
  ∧ logsExec lastBuildFailEnv "alpha" true = .nilPanic "" :=
  ⟨(c3_single_job_abort jobFetchFailEnv "alpha" false "connection refused").1
      (by decide),
   (c3_single_job_abort lastBuildFailEnv "alpha" true "timeout").2
      ⟨Except.error "timeout"⟩ (by decide) (by decide)⟩

/-- C4: the salt filter is exactly the filter, over the segments
obtained by splitting the console output on the ten-hyphen separator,
of the segments containing the substring `Result: False`, in original
segment order (a sublist of the split). -/
theorem c4_salt_filter (output : String) :
    getFailedSaltStates output
      = (output.splitOn "----------").filter
          (fun state => strContains state "Result: False")
  ∧ (∀ state, state ∈ getFailedSaltStates output ↔
      state ∈ output.splitOn "----------"
      ∧ strContains state "Result: False" = true)
  ∧ (getFailedSaltStates output).Sublist (output.splitOn "----------")
  ∧ (∀ state : String, strContains state "Result: False" = true ↔
      "Result: False".data <:+: state.data) := by
  refine ⟨getFailedSaltStates_eq_filter output, ?_, ?_, ?_⟩
  · intro state
    rw [getFailedSaltStates_eq_filter output, List.mem_filter]
  · rw [getFailedSaltStates_eq_filter output]
    exact List.filter_sublist _
  · intro state
    unfold strContains
    exact decide_eq_true_iff

/-- C5: the job matcher returns exactly the order-preserving
subsequence of the job list whose names the pattern matches; the match
verdict coincides with unanchored substring-search semantics of the
compiled pattern; and the default pattern `.*` returns the whole list
unchanged. -/
theorem c5_job_matcher (jenkins : Jenkins) (pattern : String)
    (jobs : List InnerJob) (h : jenkins.allJobNames = .ok jobs) :
    findMatchingJobs jenkins pattern
      = .ok (jobs.filter (fun job => matchVerdict pattern job.name))
  ∧ (jobs.filter (fun job => matchVerdict pattern job.name)).Sublist jobs
  ∧ (∀ r, parseGoRegex pattern = .ok r →
      ∀ name : String, matchVerdict pattern name = true ↔ SubstringMatches r name)
  ∧ findMatchingJobs jenkins ".*" = .ok jobs := by
  refine ⟨findMatchingJobs_eq_filter pattern h, List.filter_sublist _, ?_, ?_⟩
  · intro r hr name
    unfold matchVerdict goMatchString
    rw [hr]
    exact containsMatch_substring_iff r name
  · rw [findMatchingJobs_eq_filter ".*" h,
      List.filter_eq_self.mpr (fun job _ => matchVerdict_dotstar job.name)]

/-- C5 witness: on a three-job server, pattern `be` selects exactly the
two jobs containing `be`, in order, and `.*` returns all three. -/
theorem c5_witness :
    findMatchingJobs matcherEnv "be" = .ok [⟨"beta", "u2"⟩, ⟨"beet", "u3"⟩]
  ∧ findMatchingJobs matcherEnv ".*"
      = .ok [⟨"alpha", "u1"⟩, ⟨"beta", "u2"⟩, ⟨"beet", "u3"⟩] := by
  have h := c5_job_matcher matcherEnv "be"
    [⟨"alpha", "u1"⟩, ⟨"beta", "u2"⟩, ⟨"beet", "u3"⟩] (by decide)
  refine ⟨?_, h.2.2.2⟩
  rw [h.1]
  decide

/-- C6: the status marker mapping sends `SUCCESS` to the Ok marker,
`FAILURE` to the Failed marker, and every other result string —
including every synthesized `UNKNOWN (...)` string — to the Unknown
marker. -/
theorem c6_marker_mapping :
    markerFor "SUCCESS" = Marker.ok
  ∧ markerFor "FAILURE" = Marker.failed
  ∧ (∀ s : String, s ≠ "SUCCESS" → s ≠ "FAILURE" → markerFor s = Marker.unknown)
  ∧ (∀ e : String, markerFor ("UNKNOWN (" ++ e ++ ")") = Marker.unknown) := by
  refine ⟨rfl, rfl, ?_, ?_⟩
  · intro s h₁ h₂
    unfold markerFor
    rw [if_neg h₁, if_neg h₂]
  · intro e
    have hlen : ("UNKNOWN (" ++ e ++ ")").length = e.length + 10 := by
      rw [String.length_append, String.length_append,
        show ("UNKNOWN (" : String).length = 9 from rfl,
        show (")" : String).length = 1 from rfl]
      omega
    have h₁ : ("UNKNOWN (" ++ e ++ ")") ≠ "SUCCESS" := by
      intro h
      have h' := congrArg String.length h
      rw [hlen, show ("SUCCESS" : String).length = 7 from rfl] at h'
      omega
    have h₂ : ("UNKNOWN (" ++ e ++ ")") ≠ "FAILURE" := by
      intro h
      have h' := congrArg String.length h
      rw [hlen, show ("FAILURE" : String).length = 7 from rfl] at h'
      omega
    unfold markerFor
    rw [if_neg h₁, if_neg h₂]

/-- C6 witness: the synthesized string `UNKNOWN (error)` gets the
Unknown marker. -/
theorem c6_witness : markerFor "UNKNOWN (error)" = Marker.unknown :=
  c6_marker_mapping.2.2.1 "UNKNOWN (error)" (by decide) (by decide)

/-- C7: when the resolved match set has four or more members the open
command dies fatally and opens no browser tab; with three or fewer it
opens exactly one tab per member, in matched order. -/
theorem c7_open_guard (jenkins : Jenkins) (regex : String)
    (jobs : List InnerJob) (h : findMatchingJobs jenkins regex = .ok jobs) :
    (4 ≤ jobs.length →
      openExec jenkins regex
        = .fatal "More than three jobs match your criteria. This is probably not what you expected. Please narrow down your search"
      ∧ openedTabs (openExec jenkins regex) = [])
  ∧ (jobs.length ≤ 3 →
      openExec jenkins regex = .ok (jobs.map (fun job => job.url))
      ∧ openedTabs (openExec jenkins regex)
          = jobs.map (fun job => job.url)) := by
  have hopen : openExec jenkins regex
      = if jobs.length > 3 then
          .fatal "More than three jobs match your criteria. This is probably not what you expected. Please narrow down your search"
        else .ok (jobs.map (fun job => job.url)) := by
    unfold openExec
    rw [h]
  constructor
  · intro h₄
    rw [hopen, if_pos (by omega)]
    exact ⟨rfl, rfl⟩
  · intro h₃
    rw [hopen, if_neg (by omega)]
    exact ⟨rfl, rfl⟩

/-- C7 witness: four matched jobs die fatally with zero tabs; three
matched jobs open their three URLs in order. -/
theorem c7_witness :
    openExec fourJobsEnv ".*"
      = .fatal "More than three jobs match your criteria. This is probably not what you expected. Please narrow down your search"
  ∧ openedTabs (openExec fourJobsEnv ".*") = []
  ∧ openExec matcherEnv ".*" = .ok ["u1", "u2", "u3"] := by
  have h₄ := c7_open_guard fourJobsEnv ".*"
    [⟨"a", "u1"⟩, ⟨"b", "u2"⟩, ⟨"c", "u3"⟩, ⟨"d", "u4"⟩] (by decide)
  have h₃ := c7_open_guard matcherEnv ".*"
    [⟨"alpha", "u1"⟩, ⟨"beta", "u2"⟩, ⟨"beet", "u3"⟩] (by decide)
  have ha := h₄.1 (by decide)
  have hb := (h₃.2 (by decide)).1
  exact ⟨ha.1, ha.2, by rw [hb]; rfl⟩

/-- C8: a pattern the regular-expression compiler rejects makes every
per-job match attempt yield false with the error swallowed, so the
matcher returns an empty match set rather than an error and the
command is not aborted. -/
theorem c8_malformed_pattern (jenkins : Jenkins) (pattern : String)
    (jobs : List InnerJob) (e : String)
    (hjobs : jenkins.allJobNames = .ok jobs)
    (hbad : parseGoRegex pattern = .error e) :
    (∀ name : String, matchVerdict pattern name = false)
  ∧ findMatchingJobs jenkins pattern = .ok [] := by
  refine ⟨matchVerdict_of_parse_error hbad, ?_⟩
  rw [findMatchingJobs_eq_filter pattern hjobs,
    List.filter_eq_nil_iff.mpr
      (fun job _ => by rw [matchVerdict_of_parse_error hbad job.name]; simp)]

/-- C8 witness: the malformed pattern `(` matches nothing and the
matcher returns the empty match set. -/
theorem c8_witness :
    matchVerdict "(" "alpha" = false
  ∧ findMatchingJobs matcherEnv "(" = .ok [] := by
  have h := c8_malformed_pattern matcherEnv "("
    [⟨"alpha", "u1"⟩, ⟨"beta", "u2"⟩, ⟨"beet", "u3"⟩]
    "unsupported metacharacter in modelled subset" (by decide) (by decide)
  exact ⟨h.1 "alpha", h.2⟩

/-- C9, counterexample: a node whose online query fails produces no
output line at all — the error is discarded with the goroutine's
return value, not propagated as a visible failure for that node — while
the other nodes' lines are unaffected. -/
theorem c9_counterexample_invisible_error :
    nodesExec nodesEnv = .ok [some "n1: Online", none, some "n3: Offline"]
  ∧ printedLines [some "n1: Online", none, some "n3: Offline"]
      = ["n1: Online", "n3: Offline"]
  ∧ printNodeStatus ⟨"n2", false, .ok true, some "query failed"⟩ = none := by
  decide

/-- C9 (amended): the node reporter polls before reading, so a
successful poll makes the printed flag the live value and a failed
poll leaves the stale cached value (the poll error is ignored
outright); an online-query error silently suppresses that node's line,
the error being discarded; and the fan-out maps nodes independently,
one outcome per node. -/
theorem c9_node_reporter (node : NodeState) :
    (∀ live : Bool, node.pollResult = .ok live → node.queryErr = none →
      printNodeStatus node
        = some (node.name ++ ": " ++ (if live then "Online" else "Offline")))
  ∧ (∀ e, node.queryErr = some e → printNodeStatus node = none)
  ∧ (∀ e, node.pollResult = .error e → node.queryErr = none →
      printNodeStatus node
        = some (node.name ++ ": "
            ++ (if node.cachedOnline then "Online" else "Offline")))
  ∧ (∀ jenkins ns, jenkins.allNodes = .ok ns →
      nodesExec jenkins = .ok (ns.map printNodeStatus)) := by
  refine ⟨?_, ?_, ?_, ?_⟩
  · intro live hp hq
    unfold printNodeStatus
    rw [hp]
    simp [hq]
  · intro e hq
    unfold printNodeStatus
    cases hp : node.pollResult with
    | ok live => simp [hq]
    | error e' => simp [hq]
  · intro e hp hq
    unfold printNodeStatus
    rw [hp]
    simp [hq]
  · intro jenkins ns h
    unfold nodesExec
    rw [h]

/-- C9 witness: a healthy node prints its live polled value, and a node
whose poll fails prints its stale cached value. -/
theorem c9_witness :
    printNodeStatus ⟨"n1", false, .ok true, none⟩ = some "n1: Online"
  ∧ printNodeStatus stalePollNode = some "n4: Online" := by
  constructor
  · have h := (c9_node_reporter ⟨"n1", false, .ok true, none⟩).1 true rfl rfl
    simpa using h
  · have h := (c9_node_reporter stalePollNode).2.2.1 "poll failed" rfl rfl
    simpa [stalePollNode] using h

/-- C10: when the job resolves but the last-build fetch fails, the logs
command synthesizes the UNKNOWN result string and then calls GetUrl on
the absent (nil) build — the access in the error branch is unguarded,
so the command panics before printing anything. -/
theorem c10_unguarded_deref (jenkins : Jenkins) (jobName : String)
    (salt : Bool) (job : Job) (e : String)
    (h₁ : jenkins.getJob jobName = .ok job) (h₂ : job.lastBuild = .error e) :
    logsExec jenkins jobName salt = .nilPanic "" := by
  unfold logsExec
  rw [h₁]
  simp only [h₂]

/-- C10 witness: the unguarded dereference at a concrete server. -/
theorem c10_witness : logsExec lastBuildFailEnv "alpha" false = .nilPanic "" :=
  c10_unguarded_deref lastBuildFailEnv "alpha" false
    ⟨Except.error "timeout"⟩ "timeout" (by decide) (by decide)

end Riffraff
